import Mathlib

/-!
Verification of the arista transcoder core (pipeline construction, pass
management, capability resolution, geometry planning, progress tracking)
against its natural-language specification.

The Python source is shallowly embedded: Python `range(a, b)` / tuples of
ints become the `Capacity` tagged union, Python ints become `Int`, floats
(used only for exact small computations in the source) become `ℚ` with an
explicit truncation mirroring Python's `int()`, and exception-raising code
returns `Option`/explicit outcome types.
-/

namespace Arista

/-! ## Capability bounds (`arista/utils.py`)

Python represents an encoder capability bound either as `range(start, stop)`
or as a tuple of discrete values.  `Capacity` is that union. -/

inductive Capacity where
  | rng (start stop : Int)
  | tup (vals : List Int)
deriving DecidableEq, Repr

/-- The list of elements of Python `range(s, e)` (step 1). -/
def rngToList (s e : Int) : List Int :=
  (List.range (e - s).toNat).map (fun i : Nat => s + (i : Int))

/-- Membership in a capability bound (`x in range(s, e)` / `x in tup`). -/
def inCap : Capacity → Int → Bool
  | .rng s e, x => decide (s ≤ x ∧ x < e)
  | .tup vs, x => decide (x ∈ vs)

/-- Python `frozenset(t) <= frozenset(range(s, e))`. -/
def subsetOfRange (t : List Int) (s e : Int) : Bool :=
  t.all (fun x => decide (s ≤ x ∧ x < e))

/-- `utils.merge_range_and_tuple(r, t)`: try to keep the range
representation, expanding it by at most one on each side; otherwise fall
back to the sorted concatenation `tuple(sorted(tuple(r) + t))`. -/
def merge_range_and_tuple (rs re : Int) (t : List Int) : Capacity :=
  if subsetOfRange t rs re then .rng rs re
  else if subsetOfRange t rs (re + 1) then .rng rs (re + 1)
  else if subsetOfRange t (rs - 1) re then .rng (rs - 1) re
  else if subsetOfRange t (rs - 1) (re + 1) then .rng (rs - 1) (re + 1)
  else .tup ((rngToList rs re ++ t).mergeSort (fun a b => decide (a ≤ b)))

/-- `utils.expand_capacity(current, new)`.  The tuple/tuple branch is
Python `tuple(sorted(set(current) | set(new)))`. -/
def expand_capacity : Capacity → Capacity → Capacity
  | .rng cs ce, .rng ns ne =>
    if ce ≥ ns ∨ ne ≥ cs then .rng (min cs ns) (max ce ne)
    else .tup ((rngToList cs ce ++ rngToList ns ne).mergeSort (fun a b => decide (a ≤ b)))
  | .rng cs ce, .tup t => merge_range_and_tuple cs ce t
  | .tup t, .rng ns ne => merge_range_and_tuple ns ne t
  | .tup a, .tup b => .tup (((a ++ b).dedup).mergeSort (fun a b => decide (a ≤ b)))

lemma mem_rngToList {s e x : Int} : x ∈ rngToList s e ↔ s ≤ x ∧ x < e := by
  simp only [rngToList, List.mem_map, List.mem_range]
  constructor
  · rintro ⟨i, hi, rfl⟩
    omega
  · rintro ⟨h1, h2⟩
    exact ⟨(x - s).toNat, by omega, by omega⟩

lemma subsetOfRange_mem {t : List Int} {s e x : Int}
    (h : subsetOfRange t s e = true) (hx : x ∈ t) : s ≤ x ∧ x < e := by
  have := List.all_eq_true.mp h x hx
  exact of_decide_eq_true this

lemma mem_mergeSortLe {l : List Int} {x : Int} :
    x ∈ l.mergeSort (fun a b => decide (a ≤ b)) ↔ x ∈ l :=
  (List.mergeSort_perm l _).mem_iff

lemma inCap_merge_range_and_tuple {rs re : Int} {t : List Int} {x : Int}
    (h : (decide (rs ≤ x ∧ x < re) = true) ∨ x ∈ t) :
    inCap (merge_range_and_tuple rs re t) x = true := by
  have h' : (rs ≤ x ∧ x < re) ∨ x ∈ t := by
    rcases h with h | h
    · exact Or.inl (of_decide_eq_true h)
    · exact Or.inr h
  unfold merge_range_and_tuple
  split_ifs with h1 h2 h3 h4
  · rcases h' with h' | h'
    · simp [inCap]; omega
    · have := subsetOfRange_mem h1 h'
      simp [inCap]; omega
  · rcases h' with h' | h'
    · simp [inCap]; omega
    · have := subsetOfRange_mem h2 h'
      simp [inCap]; omega
  · rcases h' with h' | h'
    · simp [inCap]; omega
    · have := subsetOfRange_mem h3 h'
      simp [inCap]; omega
  · rcases h' with h' | h'
    · simp [inCap]; omega
    · have := subsetOfRange_mem h4 h'
      simp [inCap]; omega
  · simp only [inCap, decide_eq_true_eq, mem_mergeSortLe, List.mem_append]
    rcases h' with h' | h'
    · exact Or.inl (mem_rngToList.mpr h')
    · exact Or.inr h'

/-- C9: `expand_capacity` always covers the union of the coverages of its
two arguments: any value lying in either input bound lies in the result,
for every pair of bounds in either argument order. -/
theorem expand_capacity_covers (c n : Capacity) (x : Int)
    (h : inCap c x = true ∨ inCap n x = true) :
    inCap (expand_capacity c n) x = true := by
  rcases c with ⟨cs, ce⟩ | a <;> rcases n with ⟨ns, ne⟩ | b
  · simp only [expand_capacity]
    split_ifs with hcond
    · simp only [inCap, decide_eq_true_eq] at h ⊢
      rcases h with h | h <;>
        exact ⟨le_trans (by omega) h.1, lt_of_lt_of_le h.2 (by omega)⟩
    · simp only [inCap, decide_eq_true_eq, mem_mergeSortLe, List.mem_append] at h ⊢
      rcases h with h | h
      · exact Or.inl (mem_rngToList.mpr h)
      · exact Or.inr (mem_rngToList.mpr h)
  · exact inCap_merge_range_and_tuple (by simpa [inCap] using h)
  · exact inCap_merge_range_and_tuple (by simpa [inCap, or_comm] using h)
  · simp only [inCap, decide_eq_true_eq] at h
    simp only [expand_capacity, inCap, decide_eq_true_eq, mem_mergeSortLe,
      List.mem_dedup, List.mem_append]
    exact h

/-- Witness for C9 at concrete bounds: `7` lies in the tuple argument and in
the merged result of `range(2, 5)` with `(7,)`. -/
theorem expand_capacity_covers_witness :
    inCap (expand_capacity (.rng 2 5) (.tup [7])) 7 = true :=
  expand_capacity_covers (.rng 2 5) (.tup [7]) 7 (Or.inr (by decide))

/-! ## Video capability clamping (`Transcoder._setup_pass`, transcoder.py) -/

/-- The per-field width/height clamp of `_setup_pass`: the encoder-reported
bound is Python `range(rstart, rstop)` (so `vmin = rstart`,
`vmax = rstop - 1`); the preset's declared bound `cur` first has its min
raised to `vmin` if below it, then its max lowered to `vmax` if above it. -/
def clamp_encoder_bound (cur : Int × Int) (rstart rstop : Int) : Int × Int :=
  let cur1 := if cur.1 < rstart then (rstart, cur.2) else cur
  if cur1.2 > rstop - 1 then (cur1.1, rstop - 1) else cur1

/-- The `struct.has_field(field)` guard: when the encoder reports no bound
for the field, the declared bound passes through unchanged. -/
def resolve_video_bound (cur : Int × Int) (reported : Option (Int × Int)) : Int × Int :=
  match reported with
  | none => cur
  | some (s, e) => clamp_encoder_bound cur s e

/-- C3 counterexample: capability resolution of video bounds does narrow the
declared bound.  Declared width bound `(2, 1920)` against an encoder
reporting `range(16, 2147483647)` yields `(16, 1920)`, which no longer
covers the declared value `2`. -/
theorem clamp_encoder_bound_claim_cex :
    ¬ (∀ (cur : Int × Int) (reported : Option (Int × Int)) (x : Int),
        cur.1 ≤ x → x ≤ cur.2 →
        (resolve_video_bound cur reported).1 ≤ x ∧
          x ≤ (resolve_video_bound cur reported).2) := by
  intro h
  have h2 := h (2, 1920) (some (16, 2147483647)) 2 (by norm_num) (by norm_num)
  revert h2
  decide

/-- C3 amended: the effective video bound is the clamp (intersection-style)
of the declared bound into the encoder-reported bound: its min is
`max declared.min reported.start` and its max is
`min declared.max (reported.stop - 1)`; a missing reported bound leaves the
declared bound unchanged. -/
theorem clamp_encoder_bound_eq (cur : Int × Int) (rstart rstop : Int) :
    clamp_encoder_bound cur rstart rstop =
      (max cur.1 rstart, min cur.2 (rstop - 1)) ∧
    resolve_video_bound cur none = cur := by
  refine ⟨?_, rfl⟩
  rcases cur with ⟨a, b⟩
  simp only [clamp_encoder_bound]
  split_ifs <;> simp_all [Prod.mk.injEq] <;> omega

/-! ## Preset data model and pass setup
(`presets.py` `Preset`/`Codec`, `Transcoder._setup_pass`)

A `Codec` keeps only the fields the claims are about; in the source
`preset.vcodec` / `preset.acodec` are objects (always truthy when present),
modelled here as always present. -/

structure Codec where
  name : String
  container : String
  passes : List String
deriving DecidableEq, Repr

structure Preset where
  name : String
  container : String
  extension : String
  vcodec : Codec
  acodec : Codec
deriving DecidableEq, Repr

/-- `Preset.pass_count`: `max(len(self.vcodec.passes), len(self.acodec.passes))`. -/
def Preset.pass_count (p : Preset) : Nat :=
  max p.vcodec.passes.length p.acodec.passes.length

/-- The shape of the pipeline command `_setup_pass` assembles.  `container`
models the Python variable of the same name, with `""` standing for Python
`None` (both are falsy in the `if container:` test). -/
structure PassSetup where
  container : String
  usesMux : Bool
  videoIncluded : Bool
  audioIncluded : Bool
deriving DecidableEq, Repr

/-- The branching skeleton of `Transcoder._setup_pass`: container / mux
selection, and whether the video and audio branches are appended to the
pipeline command.  The audio branch requires
`is_audio(self.info) and self.preset.acodec and
self.enc_pass == len(self.preset.vcodec.passes) - 1`. -/
def setup_pass (hasVideo hasAudio : Bool) (p : Preset) (enc_pass : Nat) : PassSetup :=
  let container :=
    if hasVideo && hasAudio then p.container
    else if hasVideo then (if p.vcodec.container != "" then p.vcodec.container else p.container)
    else if hasAudio then (if p.acodec.container != "" then p.acodec.container else p.container)
    else ""
  { container := container
    usesMux := container != ""
    videoIncluded := hasVideo
    audioIncluded :=
      hasAudio && decide ((enc_pass : Int) = (p.vcodec.passes.length : Int) - 1) }

/-- C1 counterexample: with `vcodec.passes` and `acodec.passes` both of
length 2 the claimed rule admits the audio branch on pass 0
(`0 ≥ total_passes - len(acodec.passes) = 0`), but `_setup_pass` only
includes audio when `enc_pass == len(vcodec.passes) - 1 = 1`. -/
theorem setup_pass_audio_claim_cex :
    ¬ (∀ (p : Preset) (cp : Nat), cp < p.pass_count →
        ((setup_pass true true p cp).audioIncluded = true ↔
          p.pass_count - p.acodec.passes.length ≤ cp)) := by
  intro h
  have h2 := h ⟨"Example", "mp4mux", "mp4",
    ⟨"theoraenc", "", ["vp0", "vp1"]⟩, ⟨"vorbisenc", "", ["ap0", "ap1"]⟩⟩ 0 (by decide)
  revert h2
  decide

/-- C1 amended: `total_passes` is `max(len(vcodec.passes),
len(acodec.passes))`, and for audio-bearing media the audio branch is
included in `_setup_pass` exactly when the current pass is the final
vcodec pass, `enc_pass = len(vcodec.passes) - 1` — not throughout the
final `len(acodec.passes)` passes. -/
theorem setup_pass_audio_iff (hasVideo : Bool) (p : Preset) (enc_pass : Nat)
    (hvl : 1 ≤ p.vcodec.passes.length) :
    p.pass_count = max p.vcodec.passes.length p.acodec.passes.length ∧
    ((setup_pass hasVideo true p enc_pass).audioIncluded = true ↔
      enc_pass = p.vcodec.passes.length - 1) := by
  refine ⟨rfl, ?_⟩
  simp only [setup_pass, Bool.true_and, decide_eq_true_eq]
  omega

/-- Witness for C1 amended at a two-pass video / one-pass audio preset:
audio is included exactly on pass 1. -/
theorem setup_pass_audio_iff_witness :
    1 ≤ (["v0", "v1"] : List String).length ∧
    (((setup_pass true true
        ⟨"W", "mp4mux", "mp4", ⟨"x264enc", "", ["v0", "v1"]⟩,
          ⟨"faac", "", ["a0"]⟩⟩ 1).audioIncluded = true ↔
      1 = (["v0", "v1"] : List String).length - 1) ∧
      (setup_pass true true
        ⟨"W", "mp4mux", "mp4", ⟨"x264enc", "", ["v0", "v1"]⟩,
          ⟨"faac", "", ["a0"]⟩⟩ 1).audioIncluded = true) :=
  ⟨by decide,
   (setup_pass_audio_iff true
      ⟨"W", "mp4mux", "mp4", ⟨"x264enc", "", ["v0", "v1"]⟩,
        ⟨"faac", "", ["a0"]⟩⟩ 1 (by decide)).2,
   by decide⟩

/-! ## Pass state machine (`Transcoder._on_message`, `Transcoder.start`) -/

/-- GObject signals the transcoder emits (transcoder.py `__gsignals__`). -/
inductive Signal where
  | passSetup
  | passComplete
  | complete
  | message
  | error (text : String)
deriving DecidableEq, Repr

/-- Bus messages the handler reacts to. -/
inductive BusMessage where
  | eos
  | errorMsg (text : String)
  | other
deriving DecidableEq, Repr

/-- The mutable job fields the pass state machine touches:
`self.enc_pass` and `self.start_time`. -/
structure JobState where
  enc_pass : Nat
  start_time : ℚ
deriving DecidableEq, Repr

/-- `Transcoder.start(reset_timer=True)`: sets the pipeline playing (not
modelled) and, when `reset_timer` (default `True`), resets
`self.start_time` to the current wall clock. -/
def start (st : JobState) (now : ℚ) (reset_timer : Bool) : JobState :=
  if reset_timer then { st with start_time := now } else st

/-- `Transcoder._on_message`: on end-of-stream emit `pass-complete`, then
either advance the pass (increment `enc_pass`, rebuild via `_setup_pass`
which emits `pass-setup`, and call `start()` — with its default
`reset_timer=True`) or emit `complete`; on an error message print the
parsed error to stdout; in every case finish by emitting `message`.
Returns (new state, emitted signals in order, printed-to-stdout flag). -/
def on_message (st : JobState) (pass_count : Nat) (msg : BusMessage) (now : ℚ) :
    JobState × List Signal × Bool :=
  match msg with
  | .eos =>
    if st.enc_pass < pass_count - 1 then
      (start { st with enc_pass := st.enc_pass + 1 } now true,
       [.passComplete, .passSetup, .message], false)
    else
      (st, [.passComplete, .complete, .message], false)
  | .errorMsg _ => (st, [.message], true)
  | .other => (st, [.message], false)

/-- C6 counterexample: an engine error event is never surfaced through the
`error` notification — the handler prints it and emits only the generic
`message` signal, so the claimed exactly-once `error` emission fails. -/
theorem on_message_error_claim_cex :
    ¬ (∀ (st : JobState) (pc : Nat) (e : String) (now : ℚ),
        (on_message st pc (.errorMsg e) now).2.1.count (.error e) = 1) := by
  intro h
  have h2 := h ⟨0, 0⟩ 2 "decode failed" 0
  revert h2
  decide

/-- C6 amended: an engine error event leaves the job state unchanged, sets
only the printed-to-stdout flag, and is forwarded solely through the
generic `message` notification; no `error` notification is emitted (and no
failure state is recorded). -/
theorem on_message_error_behavior (st : JobState) (pc : Nat) (e : String) (now : ℚ) :
    on_message st pc (.errorMsg e) now = (st, [.message], true) ∧
    Signal.error e ∉ (on_message st pc (.errorMsg e) now).2.1 := by
  refine ⟨rfl, ?_⟩
  simp [on_message]

/-- C7 counterexample: the elapsed-time origin `start_time` is not
preserved across a pass advance — starting from `start_time = 0`, an EOS at
time 10 with a pass remaining leaves `start_time = 10`. -/
theorem start_time_pass_advance_cex :
    ¬ (∀ (st : JobState) (pc : Nat) (now : ℚ),
        st.enc_pass < pc - 1 →
        ((on_message st pc .eos now).1).start_time = st.start_time) := by
  intro h
  have h2 := h ⟨0, 0⟩ 2 10 (by decide)
  revert h2
  decide

/-- C7 amended: on a pass advance the handler increments `enc_pass` and
resets the elapsed-time origin to the current time, because it invokes
`start()` with the default `reset_timer=True`; the origin is preserved only
when a caller passes `reset_timer=False` explicitly. -/
theorem on_message_pass_advance_resets_timer (st : JobState) (pc : Nat) (now : ℚ)
    (h : st.enc_pass < pc - 1) :
    (on_message st pc .eos now).1 = ⟨st.enc_pass + 1, now⟩ ∧
    start st now false = st := by
  refine ⟨?_, rfl⟩
  simp [on_message, start, h]

/-- Witness for C7 amended: a job on pass 0 of 3 receiving EOS at time 9
advances to pass 1 with its timer origin reset to 9. -/
theorem on_message_pass_advance_resets_timer_witness :
    (JobState.mk 0 5).enc_pass < 3 - 1 ∧
    (on_message ⟨0, 5⟩ 3 .eos 9).1 = ⟨1, 9⟩ ∧
    start ⟨0, 5⟩ 9 false = ⟨0, 5⟩ :=
  ⟨by decide, on_message_pass_advance_resets_timer ⟨0, 5⟩ 3 9 (by decide)⟩

/-! ## Progress/status tracker (`Transcoder.get_status`)

Wall-clock times and the completion fraction are modelled as `ℚ` (the
source computes them with exact integer nanosecond positions divided in
floating point; the claims at stake are control-flow claims).  The position
query `self.pipe.query_position(...)` is modelled by `PosQuery`: `noPipe`
is the `AttributeError` path (`self.pipe is None`), `failed` is
`success == False`. -/

structure TrackerState where
  percent_cached : ℚ
  percent_cached_time : ℚ
  start_time : ℚ
deriving DecidableEq, Repr

inductive PosQuery where
  | noPipe
  | failed
  | ok (pos : Int)
deriving DecidableEq, Repr

/-- The second component of the returned pair: either the literal string
`"Unknown"` or the remaining time formatted from a rational value. -/
inductive TimeRem where
  | unknownTime
  | mmss (rem : ℚ)
deriving DecidableEq, Repr

/-- Outcome of `get_status`: `raised` models raising
`TranscoderStatusException`; `ret` models `return percent, time_rem`. -/
inductive StatusOut where
  | raised
  | ret (percent : ℚ) (rem : TimeRem)
deriving DecidableEq, Repr

/-- `Transcoder.get_status`.  Returns the outcome, the updated cached
stall-detection fields, and whether an end-of-stream message was posted on
the pipeline (the stall trigger).  Mirrors the source order: unknown or
non-positive duration returns `(0.0, "Unknown")`; a missing pipeline or a
failed position query raises; `percent <= 0` returns `(0.0, "Unknown")`;
the stall check uses the old cached values and the cache is only updated
when the fraction changed. -/
def get_status (st : TrackerState) (duration : Option Int) (q : PosQuery) (now : ℚ) :
    StatusOut × TrackerState × Bool :=
  match duration with
  | none => (.ret 0 .unknownTime, st, false)
  | some d =>
    if d ≤ 0 then (.ret 0 .unknownTime, st, false)
    else
      match q with
      | .noPipe => (.raised, st, false)
      | .failed => (.raised, st, false)
      | .ok pos =>
        let percent : ℚ := (pos : ℚ) / (d : ℚ)
        if percent ≤ 0 then (.ret 0 .unknownTime, st, false)
        else
          let eos := decide (st.percent_cached = percent ∧ now - st.percent_cached_time > 5)
          let st' := if st.percent_cached ≠ percent
                     then ⟨percent, now, st.start_time⟩
                     else st
          let total := 1 / percent * (now - st.start_time)
          (.ret percent (.mmss (total - (now - st.start_time))), st', eos)

/-- C2 counterexample: an unknown (zero) duration does not raise — the
query returns `(0.0, "Unknown")` even with no active pipeline, so the
claimed iff fails on its duration disjunct. -/
theorem get_status_raises_claim_cex :
    ¬ (∀ (st : TrackerState) (d : Option Int) (q : PosQuery) (now : ℚ),
        (get_status st d q now).1 = .raised ↔
          (d = none ∨ (∃ v, d = some v ∧ v ≤ 0) ∨ q = .noPipe ∨ q = .failed)) := by
  intro h
  have h2 := (h ⟨0, 0, 0⟩ (some 0) .noPipe 0).mpr
    (Or.inr (Or.inl ⟨0, rfl, le_refl 0⟩))
  simp [get_status] at h2

/-- C2 amended: `get_status` raises the status exception exactly when the
duration is known and positive AND the position query fails (no active
pipeline, or the query itself unsuccessful); an unknown or non-positive
duration instead returns `(0.0, "Unknown")` without raising, and every
non-raising case returns a (fraction, remaining-time) pair. -/
theorem get_status_raises_iff (st : TrackerState) (d : Option Int) (q : PosQuery) (now : ℚ) :
    ((get_status st d q now).1 = .raised ↔
      ((∃ v, d = some v ∧ 0 < v) ∧ (q = .noPipe ∨ q = .failed))) ∧
    ((get_status st d q now).1 ≠ .raised →
      ∃ percent rem, (get_status st d q now).1 = .ret percent rem) := by
  constructor
  · rcases d with _ | v
    · simp [get_status]
    · rcases q with _ | _ | pos <;> simp only [get_status] <;> split_ifs <;>
        simp_all
  · intro hne
    rcases hout : (get_status st d q now).1 with _ | ⟨percent, rem⟩
    · exact absurd hout hne
    · exact ⟨percent, rem, rfl⟩

/-- C5 counterexample: starting from a fresh tracker, a query at time 0
yields fraction `42/100`; a second query at time 6 (more than 5 s later,
same fraction) posts EOS; but because the cached timestamp is not
refreshed while the fraction is unchanged, a third query at time 7 posts
EOS again, contradicting the claimed single request per stall. -/
theorem get_status_stall_claim_cex :
    ¬ (∀ (st : TrackerState) (d : Option Int) (pos : Int) (t2 t3 : ℚ),
        (get_status st d (.ok pos) t2).2.2 = true → t2 < t3 →
        (get_status (get_status st d (.ok pos) t2).2.1 d (.ok pos) t3).2.2 = false) := by
  intro h
  have hst1 : (get_status ⟨0, 0, 0⟩ (some 100) (.ok 42) 0).2.1 = ⟨42/100, 0, 0⟩ := by
    norm_num [get_status]
  have h2 := h ⟨42/100, 0, 0⟩ (some 100) 42 6 7 (by norm_num [get_status]) (by norm_num)
  have h3 : (get_status (get_status ⟨(42:ℚ)/100, 0, 0⟩ (some 100) (.ok 42) 6).2.1
      (some 100) (.ok 42) 7).2.2 = true := by
    norm_num [get_status]
  rw [h2] at h3
  exact Bool.false_ne_true h3

/-- C5 amended: a stalled query (cached fraction equal to the current one,
more than 5 s since the cached timestamp) posts an EOS request but leaves
the cached state untouched, so every later identical query past the same
5-second threshold posts a further EOS request — one request per stalled
query, not one per stall. -/
theorem get_status_stall_reposts (st : TrackerState) (d : Option Int) (pos : Int)
    (t2 t3 : ℚ)
    (h2 : (get_status st d (.ok pos) t2).2.2 = true)
    (h3 : t3 - st.percent_cached_time > 5) :
    (get_status st d (.ok pos) t2).2.1 = st ∧
    (get_status st d (.ok pos) t3).2.2 = true := by
  rcases d with _ | v
  · simp [get_status] at h2
  · by_cases hv : v ≤ 0
    · simp [get_status, hv] at h2
    · by_cases hp : (pos : ℚ) / (v : ℚ) ≤ 0
      · simp [get_status, hv, hp] at h2
      · have h2' : st.percent_cached = (pos : ℚ) / (v : ℚ) ∧
            5 < t2 - st.percent_cached_time := by
          simpa [get_status, hv, hp] using h2
        constructor
        · simp [get_status, hv, hp, h2'.1]
        · simp only [get_status, if_neg hv, if_neg hp, decide_eq_true_eq]
          exact ⟨h2'.1, h3⟩

/-- Witness for C5 amended at the concrete stalled trace: cached fraction
`42/100` at time 0, queries at times 6 and 7. -/
theorem get_status_stall_reposts_witness :
    (get_status ⟨42/100, 0, 0⟩ (some 100) (.ok 42) 6).2.2 = true ∧
    ((7 : ℚ) - (TrackerState.mk (42/100) 0 0).percent_cached_time > 5) ∧
    ((get_status ⟨42/100, 0, 0⟩ (some 100) (.ok 42) 6).2.1 = ⟨42/100, 0, 0⟩ ∧
      (get_status ⟨42/100, 0, 0⟩ (some 100) (.ok 42) 7).2.2 = true) :=
  ⟨by norm_num [get_status], by norm_num,
   get_status_stall_reposts ⟨42/100, 0, 0⟩ (some 100) 42 6 7
     (by norm_num [get_status]) (by norm_num)⟩

/-! ## Geometry planner (`Transcoder._setup_pass`, width/height block)

The source computes pixel geometry with Python ints and a few
`int(float_quotient)` truncations; `pyTrunc` is that truncation (toward
zero) on exact rationals. -/

/-- Python `int(q)` applied to a quotient: truncation toward zero. -/
def pyTrunc (q : ℚ) : Int := if q < 0 then -⌊-q⌋ else ⌊q⌋

/-- The `width % 2 / height % 2` fixup: odd dimensions are incremented. -/
def evenize (x : Int) : Int := if x % 2 ≠ 0 then x + 1 else x

/-- First scaling step: fit the PAR-corrected cropped width into
`[wmin, wmax]`, recomputing the height from the same scale factor
(`height = int((float(wmin) / owidth) * oheight)` and the `wmax`
analogue). -/
def fit_width (owidth oheight wmin wmax : Int) : Int × Int :=
  if owidth < wmin then
    (wmin, pyTrunc (((wmin : ℚ) / (owidth : ℚ)) * (oheight : ℚ)))
  else if owidth > wmax then
    (wmax, pyTrunc (((wmax : ℚ) / (owidth : ℚ)) * (oheight : ℚ)))
  else (owidth, oheight)

/-- Second scaling step: re-check the height bound, recomputing the width
from the original `owidth`/`oheight` (`width = int((float(hmin) / oheight)
* owidth)` and the `hmax` analogue). -/
def fit_height (owidth oheight : Int) (wh : Int × Int) (hmin hmax : Int) : Int × Int :=
  if wh.2 < hmin then
    (pyTrunc (((hmin : ℚ) / (oheight : ℚ)) * (owidth : ℚ)), hmin)
  else if wh.2 > hmax then
    (pyTrunc (((hmax : ℚ) / (oheight : ℚ)) * (owidth : ℚ)), hmax)
  else wh

/-- The output width/height computation of `_setup_pass`: crop the source
dimensions, apply the pixel-aspect-ratio correction to the width
(`owidth = int(owidth * par_num / par_denom)`), scale to fit the width
bound, re-check the height bound, and finally force both dimensions even. -/
def plan_geometry (videoW videoH cropTop cropRight cropBottom cropLeft
    parN parD wmin wmax hmin hmax : Int) : Int × Int :=
  let ow0 : Int := videoW - cropRight - cropLeft
  let oheight : Int := videoH - cropTop - cropBottom
  let owidth : Int := pyTrunc (((ow0 * parN : Int) : ℚ) / ((parD : Int) : ℚ))
  let wh2 : Int × Int :=
    fit_height owidth oheight (fit_width owidth oheight wmin wmax) hmin hmax
  (evenize wh2.1, evenize wh2.2)

lemma evenize_even (x : Int) : evenize x % 2 = 0 := by
  unfold evenize; split_ifs <;> omega

lemma evenize_bounds_of (x lo hi : Int) (h1 : lo ≤ x) (h2 : x ≤ hi) :
    lo - 1 ≤ evenize x ∧ evenize x ≤ hi + 1 := by
  unfold evenize; split_ifs <;> omega

lemma fit_height_snd_bounds (ow oh : Int) (wh : Int × Int) (hmin hmax : Int)
    (hh : hmin ≤ hmax) :
    hmin ≤ (fit_height ow oh wh hmin hmax).2 ∧
      (fit_height ow oh wh hmin hmax).2 ≤ hmax := by
  unfold fit_height; split_ifs <;> omega

lemma geometry_pipeline_height (ow oh wmin wmax hmin hmax : Int) (hh : hmin ≤ hmax) :
    (evenize (fit_height ow oh (fit_width ow oh wmin wmax) hmin hmax).1) % 2 = 0 ∧
    (evenize (fit_height ow oh (fit_width ow oh wmin wmax) hmin hmax).2) % 2 = 0 ∧
    hmin - 1 ≤ evenize (fit_height ow oh (fit_width ow oh wmin wmax) hmin hmax).2 ∧
    evenize (fit_height ow oh (fit_width ow oh wmin wmax) hmin hmax).2 ≤ hmax + 1 := by
  obtain ⟨hl, hu⟩ := fit_height_snd_bounds ow oh (fit_width ow oh wmin wmax) hmin hmax hh
  exact ⟨evenize_even _, evenize_even _, (evenize_bounds_of _ hmin hmax hl hu).1,
    (evenize_bounds_of _ hmin hmax hl hu).2⟩

/-- C4 counterexample: a 1000×1000 source with width bound `(900, 1000)`
and height bound `(2, 125)` passes the width check unchanged, then the
height re-check rescales the width to `125` (forced even to `126`), far
below the claimed floor `wmin - 1 = 899`. -/
theorem plan_geometry_claim_cex :
    ¬ (∀ (videoW videoH cropTop cropRight cropBottom cropLeft
          parN parD wmin wmax hmin hmax : Int),
        wmin ≤ wmax → hmin ≤ hmax →
        ((plan_geometry videoW videoH cropTop cropRight cropBottom cropLeft
            parN parD wmin wmax hmin hmax).1 % 2 = 0 ∧
         (plan_geometry videoW videoH cropTop cropRight cropBottom cropLeft
            parN parD wmin wmax hmin hmax).2 % 2 = 0 ∧
         wmin - 1 ≤ (plan_geometry videoW videoH cropTop cropRight cropBottom cropLeft
            parN parD wmin wmax hmin hmax).1 ∧
         (plan_geometry videoW videoH cropTop cropRight cropBottom cropLeft
            parN parD wmin wmax hmin hmax).1 ≤ wmax + 1 ∧
         hmin - 1 ≤ (plan_geometry videoW videoH cropTop cropRight cropBottom cropLeft
            parN parD wmin wmax hmin hmax).2 ∧
         (plan_geometry videoW videoH cropTop cropRight cropBottom cropLeft
            parN parD wmin wmax hmin hmax).2 ≤ hmax + 1)) := by
  intro h
  have hval : plan_geometry 1000 1000 0 0 0 0 1 1 900 1000 2 125 = (126, 126) := by
    norm_num [plan_geometry, fit_width, fit_height, evenize, pyTrunc]
  have h2 := (h 1000 1000 0 0 0 0 1 1 900 1000 2 125 (by norm_num) (by norm_num)).2.2.1
  rw [hval] at h2
  norm_num at h2

/-- C4 amended: under `hmin ≤ hmax` the final width and height are both
even and the final height always lies within `[hmin - 1, hmax + 1]`
(indeed within `[hmin, hmax + 1]`), but the final width may fall outside
`[wmin - 1, wmax + 1]` when the second (height) bound re-check rescales
it — the sequential constraint solve leaves the width axis unprotected. -/
theorem plan_geometry_even_and_height_bound (videoW videoH cropTop cropRight
    cropBottom cropLeft parN parD wmin wmax hmin hmax : Int)
    (hh : hmin ≤ hmax) :
    (plan_geometry videoW videoH cropTop cropRight cropBottom cropLeft
        parN parD wmin wmax hmin hmax).1 % 2 = 0 ∧
    (plan_geometry videoW videoH cropTop cropRight cropBottom cropLeft
        parN parD wmin wmax hmin hmax).2 % 2 = 0 ∧
    hmin - 1 ≤ (plan_geometry videoW videoH cropTop cropRight cropBottom cropLeft
        parN parD wmin wmax hmin hmax).2 ∧
    (plan_geometry videoW videoH cropTop cropRight cropBottom cropLeft
        parN parD wmin wmax hmin hmax).2 ≤ hmax + 1 := by
  have h := geometry_pipeline_height
    (pyTrunc ((((videoW - cropRight - cropLeft) * parN : Int) : ℚ) / ((parD : Int) : ℚ)))
    (videoH - cropTop - cropBottom) wmin wmax hmin hmax hh
  simpa [plan_geometry] using h

/-- Witness for C4 amended: a 4×4 source with bounds `(2, 1920)` /
`(2, 1080)` yields the even in-bound output `(4, 4)`. -/
theorem plan_geometry_even_and_height_bound_witness :
    (2 : Int) ≤ 1080 ∧
    ((plan_geometry 4 4 0 0 0 0 1 1 2 1920 2 1080).1 % 2 = 0 ∧
     (plan_geometry 4 4 0 0 0 0 1 1 2 1920 2 1080).2 % 2 = 0 ∧
     (2 : Int) - 1 ≤ (plan_geometry 4 4 0 0 0 0 1 1 2 1920 2 1080).2 ∧
     (plan_geometry 4 4 0 0 0 0 1 1 2 1920 2 1080).2 ≤ 1080 + 1) :=
  ⟨by norm_num,
   plan_geometry_even_and_height_bound 4 4 0 0 0 0 1 1 2 1920 2 1080 (by norm_num)⟩

/-! ## Pass parameter strings (`presets.py`: `parse_pass`,
`make_pass_from_dict`, `remove_param_from_passes`)

Python strings are modelled as `List Char`; `OrderedDict` becomes an
association list with update-in-place / append-if-new semantics. -/

abbrev Chars := List Char

/-- Python `s.split()` with no separator: split on runs of whitespace,
discarding empty pieces; `acc` holds the current word reversed. -/
def pySplitWsAux : Chars → Chars → List Chars
  | [], acc => if acc.isEmpty then [] else [acc.reverse]
  | c :: cs, acc =>
    if c.isWhitespace then
      if acc.isEmpty then pySplitWsAux cs [] else acc.reverse :: pySplitWsAux cs []
    else pySplitWsAux cs (c :: acc)

def pySplitWs (s : Chars) : List Chars := pySplitWsAux s []

/-- The key part of a `key=value` token: the characters before the first
`'='`. -/
def tokKey (t : Chars) : Chars := t.takeWhile (fun c => decide (c ≠ '='))

/-- The value part of a `key=value` token: everything after the first
`'='` (which may itself contain `'='`, as Python's `split('=', 1)`). -/
def tokVal (t : Chars) : Chars := (t.dropWhile (fun c => decide (c ≠ '='))).tail

/-- Python `p.split('=', 1)` as used by `parse_pass` (`k, v = ...`):
`none` models the `ValueError` raised by the tuple unpacking when the
token contains no `'='`. -/
def splitEq1 (t : Chars) : Option (Chars × Chars) :=
  if '=' ∈ t then some (tokKey t, tokVal t) else none

/-- `OrderedDict` assignment `d[k] = v`: update the existing entry in
place, else append at the end. -/
def odSet (d : List (Chars × Chars)) (k v : Chars) : List (Chars × Chars) :=
  if d.any (fun p => decide (p.1 = k)) then
    d.map (fun p => if p.1 = k then (p.1, v) else p)
  else d ++ [(k, v)]

/-- The loop of `parse_pass` over the split tokens. -/
def parsePairs : List Chars → List (Chars × Chars) → Option (List (Chars × Chars))
  | [], d => some d
  | t :: ts, d =>
    match splitEq1 t with
    | none => none
    | some kv => parsePairs ts (odSet d kv.1 kv.2)

/-- `presets.parse_pass`. -/
def parse_pass (s : Chars) : Option (List (Chars × Chars)) :=
  parsePairs (pySplitWs s) []

/-- Python `' '.join(tokens)`. -/
def joinTokens : List Chars → Chars
  | [] => []
  | [t] => t
  | t :: t' :: ts => t ++ ' ' :: joinTokens (t' :: ts)

/-- `presets.make_pass_from_dict`: join the `'k=v'` renderings with a
single space. -/
def make_pass_from_dict (d : List (Chars × Chars)) : Chars :=
  joinTokens (d.map (fun p => p.1 ++ '=' :: p.2))

/-- `presets.remove_param_from_passes`: parse each pass string, delete
`key` when present, re-serialize. -/
def remove_param_from_passes : List Chars → Chars → Option (List Chars)
  | [], _ => some []
  | pas :: rest, key =>
    match parse_pass pas with
    | none => none
    | some d =>
      let d' := if d.any (fun p => decide (p.1 = key)) then
                  d.filter (fun p => decide (p.1 ≠ key))
                else d
      match remove_param_from_passes rest key with
      | none => none
      | some out => some (make_pass_from_dict d' :: out)

/-- A well-formed `key=value` token: no whitespace, contains `'='`. -/
def goodToken (t : Chars) : Prop :=
  (∀ c ∈ t, c.isWhitespace = false) ∧ '=' ∈ t

lemma pySplitWsAux_word (t : Chars) (ht : ∀ c ∈ t, c.isWhitespace = false) :
    ∀ (s acc : Chars), pySplitWsAux (t ++ s) acc = pySplitWsAux s (t.reverse ++ acc) := by
  induction t with
  | nil => intro s acc; simp
  | cons c t' ih =>
    intro s acc
    have hc : c.isWhitespace = false := ht c (List.mem_cons_self c t')
    have ht' : ∀ x ∈ t', x.isWhitespace = false :=
      fun x hx => ht x (List.mem_cons_of_mem c hx)
    simp only [List.cons_append, pySplitWsAux, hc, Bool.false_eq_true, if_false,
      List.append_eq]
    rw [ih ht' s (c :: acc)]
    simp [List.append_assoc]

lemma pySplitWs_join (ts : List Chars)
    (hne : ∀ t ∈ ts, t ≠ [])
    (hws : ∀ t ∈ ts, ∀ c ∈ t, c.isWhitespace = false) :
    pySplitWs (joinTokens ts) = ts := by
  induction ts with
  | nil => rfl
  | cons t rest ih =>
    have htne : t ≠ [] := hne t (List.mem_cons_self t rest)
    have htws : ∀ c ∈ t, c.isWhitespace = false :=
      hws t (List.mem_cons_self t rest)
    cases rest with
    | nil =>
      show pySplitWsAux (joinTokens [t]) [] = [t]
      have : joinTokens [t] = t ++ [] := by simp [joinTokens]
      rw [this, pySplitWsAux_word t htws [] []]
      simp only [pySplitWsAux, List.append_nil]
      rw [if_neg (by simpa [List.isEmpty_iff] using htne)]
      simp
    | cons t2 rest2 =>
      have hrest : pySplitWs (joinTokens (t2 :: rest2)) = t2 :: rest2 :=
        ih (fun x hx => hne x (List.mem_cons_of_mem t hx))
           (fun x hx => hws x (List.mem_cons_of_mem t hx))
      show pySplitWsAux (joinTokens (t :: t2 :: rest2)) [] = t :: t2 :: rest2
      have hj : joinTokens (t :: t2 :: rest2) = t ++ ' ' :: joinTokens (t2 :: rest2) := rfl
      rw [hj, pySplitWsAux_word t htws _ []]
      simp only [pySplitWsAux, Char.isWhitespace]
      rw [if_pos (by decide)]
      rw [if_neg (by simpa [List.isEmpty_iff] using htne)]
      simp only [List.append_nil, List.reverse_reverse]
      exact congrArg (t :: ·) hrest

lemma tok_recon {t : Chars} (h : '=' ∈ t) :
    tokKey t ++ '=' :: tokVal t = t := by
  induction t with
  | nil => cases h
  | cons c t' ih =>
    by_cases hc : c = '='
    · subst hc
      simp [tokKey, tokVal, List.takeWhile, List.dropWhile]
    · have h' : '=' ∈ t' := by
        rcases List.mem_cons.mp h with h | h
        · exact absurd h.symm hc
        · exact h
      have hk : tokKey (c :: t') = c :: tokKey t' := by
        simp [tokKey, List.takeWhile, hc]
      have hv : tokVal (c :: t') = tokVal t' := by
        simp [tokVal, List.dropWhile, hc]
      rw [hk, hv, List.cons_append, ih h']

lemma splitEq1_good {t : Chars} (h : '=' ∈ t) :
    splitEq1 t = some (tokKey t, tokVal t) := by
  simp [splitEq1, h]

lemma odSet_not_mem (d : List (Chars × Chars)) (k v : Chars)
    (h : ∀ p ∈ d, p.1 ≠ k) : odSet d k v = d ++ [(k, v)] := by
  have : d.any (fun p => decide (p.1 = k)) = false := by
    simp only [List.any_eq_false, decide_eq_true_eq]
    exact h
  simp [odSet, this]

lemma parsePairs_appends (ts : List Chars) :
    ∀ (d : List (Chars × Chars)),
    (∀ t ∈ ts, '=' ∈ t) →
    (ts.map tokKey).Nodup →
    (∀ p ∈ d, ∀ t ∈ ts, p.1 ≠ tokKey t) →
    parsePairs ts d = some (d ++ ts.map (fun t => (tokKey t, tokVal t))) := by
  induction ts with
  | nil => intro d _ _ _; simp [parsePairs]
  | cons t rest ih =>
    intro d heq hnd hdis
    have ht : '=' ∈ t := heq t (List.mem_cons_self t rest)
    rw [parsePairs, splitEq1_good ht]
    have hset : odSet d (tokKey t) (tokVal t) = d ++ [(tokKey t, tokVal t)] :=
      odSet_not_mem d _ _ (fun p hp => hdis p hp t (List.mem_cons_self t rest))
    simp only [hset]
    have hnd' : (rest.map tokKey).Nodup := (List.nodup_cons.mp (by simpa using hnd)).2
    have hkey_not : tokKey t ∉ rest.map tokKey :=
      (List.nodup_cons.mp (by simpa using hnd)).1
    rw [ih (d ++ [(tokKey t, tokVal t)])
        (fun x hx => heq x (List.mem_cons_of_mem t hx)) hnd' ?_]
    · simp
    · intro p hp x hx
      rcases List.mem_append.mp hp with hp | hp
      · exact hdis p hp x (List.mem_cons_of_mem t hx)
      · have hpe : p = (tokKey t, tokVal t) := by simpa using hp
        subst hpe
        intro hcontra
        have hc2 : tokKey t = tokKey x := hcontra
        apply hkey_not
        rw [hc2]
        exact List.mem_map_of_mem tokKey hx

lemma map_recon {ts : List Chars} (h : ∀ t ∈ ts, '=' ∈ t) :
    ts.map (fun t => tokKey t ++ '=' :: tokVal t) = ts := by
  induction ts with
  | nil => rfl
  | cons t rest ih =>
    simp only [List.map_cons]
    rw [tok_recon (h t (List.mem_cons_self t rest)),
      ih (fun x hx => h x (List.mem_cons_of_mem t hx))]

lemma make_pass_map {ts : List Chars} (h : ∀ t ∈ ts, '=' ∈ t) :
    make_pass_from_dict (ts.map (fun t => (tokKey t, tokVal t))) = joinTokens ts := by
  unfold make_pass_from_dict
  rw [List.map_map]
  exact congrArg joinTokens (map_recon h)

lemma good_ne_nil {t : Chars} (h : '=' ∈ t) : t ≠ [] := by
  intro hnil; subst hnil; cases h

/-- C8: serializing the parsed ordered mapping of a well-formed pass
string reproduces it exactly: for any list of single-space-joined
`key=value` tokens (whitespace-free, each containing `'='`, keys unique),
`make_pass_from_dict (parse_pass s) = s` where `s = joinTokens ts`. -/
theorem parse_pass_roundtrip (ts : List Chars)
    (hws : ∀ t ∈ ts, ∀ c ∈ t, c.isWhitespace = false)
    (heq : ∀ t ∈ ts, '=' ∈ t)
    (hkeys : (ts.map tokKey).Nodup) :
    (parse_pass (joinTokens ts)).map make_pass_from_dict = some (joinTokens ts) := by
  unfold parse_pass
  rw [pySplitWs_join ts (fun t ht => good_ne_nil (heq t ht)) hws]
  rw [parsePairs_appends ts [] heq hkeys (by simp)]
  simp only [List.nil_append, Option.map_some]
  exact congrArg some (make_pass_map heq)

/-- Witness for C8 on the concrete pass string `"a=1 b=2"`. -/
theorem parse_pass_roundtrip_witness :
    (∀ t ∈ [['a', '=', '1'], ['b', '=', '2']], ∀ c ∈ t, c.isWhitespace = false) ∧
    (∀ t ∈ [['a', '=', '1'], ['b', '=', '2']], '=' ∈ t) ∧
    (([['a', '=', '1'], ['b', '=', '2']].map tokKey).Nodup) ∧
    (parse_pass (joinTokens [['a', '=', '1'], ['b', '=', '2']])).map make_pass_from_dict
      = some (joinTokens [['a', '=', '1'], ['b', '=', '2']]) :=
  ⟨by decide, by decide, by decide,
   parse_pass_roundtrip [['a', '=', '1'], ['b', '=', '2']] (by decide) (by decide) (by decide)⟩

lemma parse_good_pass (ts : List Chars)
    (hws : ∀ t ∈ ts, ∀ c ∈ t, c.isWhitespace = false)
    (heq : ∀ t ∈ ts, '=' ∈ t)
    (hkeys : (ts.map tokKey).Nodup) :
    parse_pass (joinTokens ts) = some (ts.map (fun t => (tokKey t, tokVal t))) := by
  unfold parse_pass
  rw [pySplitWs_join ts (fun t ht => good_ne_nil (heq t ht)) hws]
  rw [parsePairs_appends ts [] heq hkeys (by simp)]
  simp

lemma ite_del_filter (d : List (Chars × Chars)) (key : Chars) :
    (if d.any (fun p => decide (p.1 = key)) then
        d.filter (fun p => decide (p.1 ≠ key))
      else d)
      = d.filter (fun p => decide (p.1 ≠ key)) := by
  split_ifs with h
  · rfl
  · refine (List.filter_eq_self.mpr fun p hp => ?_).symm
    have hfalse : d.any (fun p => decide (p.1 = key)) = false := by
      cases hb : d.any (fun p => decide (p.1 = key)) with
      | true => exact absurd hb h
      | false => rfl
    have h2 := List.any_eq_false.mp hfalse p hp
    simp only [decide_eq_true_eq] at h2 ⊢
    exact h2

lemma pairs_filter (ts : List Chars) (key : Chars) :
    (ts.map (fun t => (tokKey t, tokVal t))).filter (fun p => decide (p.1 ≠ key))
      = (ts.filter (fun t => decide (tokKey t ≠ key))).map
          (fun t => (tokKey t, tokVal t)) := by
  induction ts with
  | nil => rfl
  | cons t rest ih =>
    by_cases h : tokKey t = key
    · simp only [List.map_cons, List.filter_cons]
      simp [h]
      simpa using ih
    · simp only [List.map_cons, List.filter_cons]
      simp [h]
      simpa using ih

lemma remove_param_map (tss : List (List Chars)) (key : Chars)
    (hws : ∀ ts ∈ tss, ∀ t ∈ ts, ∀ c ∈ t, c.isWhitespace = false)
    (heq : ∀ ts ∈ tss, ∀ t ∈ ts, '=' ∈ t)
    (hkeys : ∀ ts ∈ tss, (ts.map tokKey).Nodup) :
    remove_param_from_passes (tss.map joinTokens) key
      = some (tss.map (fun ts =>
          joinTokens (ts.filter (fun t => decide (tokKey t ≠ key))))) := by
  induction tss with
  | nil => rfl
  | cons ts rest ih =>
    have h1 := hws ts (List.mem_cons_self ts rest)
    have h2 := heq ts (List.mem_cons_self ts rest)
    have h3 := hkeys ts (List.mem_cons_self ts rest)
    have hpairs := parse_good_pass ts h1 h2 h3
    have hrest := ih (fun x hx => hws x (List.mem_cons_of_mem ts hx))
      (fun x hx => heq x (List.mem_cons_of_mem ts hx))
      (fun x hx => hkeys x (List.mem_cons_of_mem ts hx))
    simp only [List.map_cons, remove_param_from_passes, hpairs, hrest]
    rw [ite_del_filter, pairs_filter]
    rw [make_pass_map (fun t ht => h2 t (List.mem_of_mem_filter ht))]

/-- C10: removing a key from well-formed pass strings yields, for each
pass, exactly the original tokens with every `key`-keyed token dropped (in
their original relative order); the output strings parse back to tokens
none of which has key `key`; and the removal is idempotent. -/
theorem remove_param_from_passes_spec (tss : List (List Chars)) (key : Chars)
    (hws : ∀ ts ∈ tss, ∀ t ∈ ts, ∀ c ∈ t, c.isWhitespace = false)
    (heq : ∀ ts ∈ tss, ∀ t ∈ ts, '=' ∈ t)
    (hkeys : ∀ ts ∈ tss, (ts.map tokKey).Nodup) :
    (remove_param_from_passes (tss.map joinTokens) key
        = some (tss.map (fun ts =>
            joinTokens (ts.filter (fun t => decide (tokKey t ≠ key)))))) ∧
    (∀ ts ∈ tss, ∀ t ∈ pySplitWs
        (joinTokens (ts.filter (fun t => decide (tokKey t ≠ key)))),
      tokKey t ≠ key) ∧
    (remove_param_from_passes
        (tss.map (fun ts =>
          joinTokens (ts.filter (fun t => decide (tokKey t ≠ key))))) key
      = some (tss.map (fun ts =>
          joinTokens (ts.filter (fun t => decide (tokKey t ≠ key)))))) := by
  have hws' : ∀ ts ∈ tss.map (fun ts => ts.filter (fun t => decide (tokKey t ≠ key))),
      ∀ t ∈ ts, ∀ c ∈ t, c.isWhitespace = false := by
    intro ts hts
    obtain ⟨ts0, hts0, rfl⟩ := List.mem_map.mp hts
    exact fun t ht => hws ts0 hts0 t (List.mem_of_mem_filter ht)
  have heq' : ∀ ts ∈ tss.map (fun ts => ts.filter (fun t => decide (tokKey t ≠ key))),
      ∀ t ∈ ts, '=' ∈ t := by
    intro ts hts
    obtain ⟨ts0, hts0, rfl⟩ := List.mem_map.mp hts
    exact fun t ht => heq ts0 hts0 t (List.mem_of_mem_filter ht)
  have hkeys' : ∀ ts ∈ tss.map (fun ts => ts.filter (fun t => decide (tokKey t ≠ key))),
      (ts.map tokKey).Nodup := by
    intro ts hts
    obtain ⟨ts0, hts0, rfl⟩ := List.mem_map.mp hts
    exact (hkeys ts0 hts0).sublist (List.Sublist.map tokKey (List.filter_sublist ts0))
  have hidem : ∀ ts : List Chars,
      (ts.filter (fun t => decide (tokKey t ≠ key))).filter
          (fun t => decide (tokKey t ≠ key))
        = ts.filter (fun t => decide (tokKey t ≠ key)) :=
    fun ts => List.filter_eq_self.mpr (fun a ha => (List.mem_filter.mp ha).2)
  refine ⟨remove_param_map tss key hws heq hkeys, ?_, ?_⟩
  · intro ts hts t ht
    rw [pySplitWs_join _
        (fun x hx => good_ne_nil (heq ts hts x (List.mem_of_mem_filter hx)))
        (fun x hx => hws ts hts x (List.mem_of_mem_filter hx))] at ht
    have hmem := List.mem_filter.mp ht
    simpa using hmem.2
  · calc remove_param_from_passes
          (tss.map (fun ts =>
            joinTokens (ts.filter (fun t => decide (tokKey t ≠ key))))) key
        = remove_param_from_passes
            ((tss.map (fun ts =>
              ts.filter (fun t => decide (tokKey t ≠ key)))).map joinTokens) key := by
          rw [List.map_map]
          rfl
      _ = some ((tss.map (fun ts =>
              ts.filter (fun t => decide (tokKey t ≠ key)))).map (fun ts =>
                joinTokens (ts.filter (fun t => decide (tokKey t ≠ key))))) :=
          remove_param_map _ key hws' heq' hkeys'
      _ = some (tss.map (fun ts =>
              joinTokens (ts.filter (fun t => decide (tokKey t ≠ key))))) := by
          rw [List.map_map]
          exact congrArg some (List.map_congr_left
            (fun ts hts => congrArg joinTokens (hidem ts)))

/-- Witness for C10 on the concrete pass list `["a=1 b=2", "b=3"]` with
key `"b"`: the result is `["a=1", ""]`, token keys avoid `"b"`, and a
second removal is a no-op. -/
theorem remove_param_from_passes_spec_witness :
    (∀ ts ∈ [[['a', '=', '1'], ['b', '=', '2']], [['b', '=', '3']]],
      ∀ t ∈ ts, ∀ c ∈ t, c.isWhitespace = false) ∧
    (∀ ts ∈ [[['a', '=', '1'], ['b', '=', '2']], [['b', '=', '3']]],
      ∀ t ∈ ts, '=' ∈ t) ∧
    (∀ ts ∈ [[['a', '=', '1'], ['b', '=', '2']], [['b', '=', '3']]],
      (ts.map tokKey).Nodup) ∧
    remove_param_from_passes
        ([[['a', '=', '1'], ['b', '=', '2']], [['b', '=', '3']]].map joinTokens) ['b']
      = some ([[['a', '=', '1'], ['b', '=', '2']], [['b', '=', '3']]].map (fun ts =>
          joinTokens (ts.filter (fun t => decide (tokKey t ≠ ['b']))))) :=
  ⟨by decide, by decide, by decide,
   (remove_param_from_passes_spec
      [[['a', '=', '1'], ['b', '=', '2']], [['b', '=', '3']]] ['b']
      (by decide) (by decide) (by decide)).1⟩

end Arista
